import Mathlib

/-!
Verification of the YAML-to-JSON converter in src/tools/yaml_to_json.go.

The program reads a YAML document from standard input, converts the parsed
node tree into an order-preserving value model, and writes it as one JSON
value to standard output.  The embedding below mirrors the Go source:
`Node` models `yaml.Node` from gopkg.in/yaml.v3 (the fields the program
reads: Kind, Style, Tag, Value, Content), `Value` models the converted
`interface` values (nil, bool, int, float, string, slice, orderedMap),
`convertNode` models the conversion function, and the marshal functions
model `orderedMap.MarshalJSON` together with the parts of encoding/json
that the program exercises.  Machine integers do not overflow here, so
Go ints are modelled as `Int`.  The one Go operation that can abort is the
slice index `node.Content[i+1]` inside `convertNode`; the embedding makes
it explicit by letting `convertNode` return `Option Value`, with `none`
standing for the out-of-range panic.
-/

/-- The node kinds of gopkg.in/yaml.v3, with their concrete Go values:
`DocumentNode`. -/
def documentNode : Nat := 1

/-- `SequenceNode` of gopkg.in/yaml.v3. -/
def sequenceNode : Nat := 2

/-- `MappingNode` of gopkg.in/yaml.v3. -/
def mappingNode : Nat := 4

/-- `ScalarNode` of gopkg.in/yaml.v3. -/
def scalarNode : Nat := 8

/-- `AliasNode` of gopkg.in/yaml.v3. -/
def aliasNode : Nat := 16

/-- `DoubleQuotedStyle` of gopkg.in/yaml.v3. -/
def doubleQuotedStyle : Nat := 2

/-- `SingleQuotedStyle` of gopkg.in/yaml.v3. -/
def singleQuotedStyle : Nat := 4

/-- `FlowStyle` of gopkg.in/yaml.v3. -/
def flowStyle : Nat := 32

/-- The syntax-tree node produced by the YAML parser: the fields of
`yaml.Node` that the program reads (Kind, Style, Tag, Value, Content). -/
inductive Node : Type where
  | mk (kind style : Nat) (tag value : String) (content : List Node)

/-- The `Kind` field of a node. -/
def Node.kind : Node → Nat
  | .mk k _ _ _ _ => k

/-- The `Style` field of a node. -/
def Node.style : Node → Nat
  | .mk _ st _ _ _ => st

/-- The `Tag` field of a node. -/
def Node.tag : Node → String
  | .mk _ _ t _ _ => t

/-- The raw `Value` field of a node. -/
def Node.value : Node → String
  | .mk _ _ _ v _ => v

/-- The `Content` field of a node: its list of children. -/
def Node.content : Node → List Node
  | .mk _ _ _ _ c => c

/-- The value model produced by conversion: the closed set of dynamic
values the Go program stores in `interface` slots — nil, bool, int,
float, string, a slice of values, and an `orderedMap` whose entries are
key/value pairs in insertion order.  A float keeps its decimal text
exactly as parsed. -/
inductive Value : Type where
  | null
  | bool (b : Bool)
  | numInt (n : Int)
  | numFloat (s : String)
  | str (s : String)
  | arr (vs : List Value)
  | obj (es : List (String × Value))

/-- True when the scalar style carries the double- or single-quoted flag,
in which case the parser tags the scalar as a string and no implicit
typing applies. -/
def isQuotedStyle (st : Nat) : Bool :=
  st.testBit 1 || st.testBit 2

/-- Modelled from the spec: the null literals of the parser's
scalar-resolution rules (gopkg.in/yaml.v3 `Node.Decode` into an untyped
value, a library routine that is not part of src/) — a tilde, the casings
of null, or the empty scalar resolve to Null. -/
def isNullLiteral (s : String) : Bool :=
  s = "" || s = "~" || s = "null" || s = "Null" || s = "NULL"

/-- Modelled from the spec: the true literals of the parser's
scalar-resolution rules. -/
def isTrueLiteral (s : String) : Bool :=
  s = "true" || s = "True" || s = "TRUE"

/-- Modelled from the spec: the false literals of the parser's
scalar-resolution rules. -/
def isFalseLiteral (s : String) : Bool :=
  s = "false" || s = "False" || s = "FALSE"

/-- Split an optional leading sign off a character list; returns whether
the sign was a minus, and the remaining characters. -/
def signSplit : List Char → Bool × List Char
  | '-' :: rest => (true, rest)
  | '+' :: rest => (false, rest)
  | l => (false, l)

/-- A nonempty run of decimal digits. -/
def decDigits (l : List Char) : Bool :=
  !l.isEmpty && l.all (fun c => c.isDigit)

/-- Modelled from the spec: the integer lexical forms of the parser's
scalar-resolution rules — an optional sign followed by decimal digits. -/
def isIntLex (s : String) : Bool :=
  decDigits (signSplit s.toList).2

/-- Numeric value of a digit run. -/
def digitsVal (l : List Char) : Nat :=
  l.foldl (fun a c => 10 * a + (c.toNat - 48)) 0

/-- Integer value of an integer lexical form. -/
def parseIntLex (s : String) : Int :=
  let p := signSplit s.toList
  if p.1 then -(digitsVal p.2 : Int) else (digitsVal p.2 : Int)

/-- Modelled from the spec: the float lexical forms of the parser's
scalar-resolution rules, restricted to the decimal-point shape the spec
exemplifies — an optional sign, digits, a point, digits. -/
def isFloatLex (s : String) : Bool :=
  match (signSplit s.toList).2.splitOn '.' with
  | [ip, fp] => decDigits ip && decDigits fp
  | _ => false

/-- Modelled from the spec: the parser's scalar resolution used by
`node.Decode` in the scalar branch of `convertNode` (the resolution code
lives in gopkg.in/yaml.v3, outside src/).  A quoted scalar stays the raw
string; otherwise null, boolean, integer and float lexical forms resolve
to the native type; anything else falls back to the raw text as a
string.  Resolution is total — there is no error case. -/
def resolveScalar (quoted : Bool) (raw : String) : Value :=
  if quoted then .str raw
  else if isNullLiteral raw then .null
  else if isTrueLiteral raw then .bool true
  else if isFalseLiteral raw then .bool false
  else if isIntLex raw then .numInt (parseIntLex raw)
  else if isFloatLex raw then .numFloat raw
  else .str raw

mutual

/-- `convertNode` of src/tools/yaml_to_json.go.  The switch on
`node.Kind` checks MappingNode, SequenceNode, ScalarNode, DocumentNode in
that order and defaults to nil.  `none` models the index-out-of-range
panic of `node.Content[i+1]` in the mapping loop. -/
def convertNode : Node → Option Value
  | .mk k st _ v content =>
    if k = mappingNode then (convertPairs content).map Value.obj
    else if k = sequenceNode then (convertList content).map Value.arr
    else if k = scalarNode then some (resolveScalar (isQuotedStyle st) v)
    else if k = documentNode then
      match content with
      | c :: _ => convertNode c
      | [] => some Value.null
    else some Value.null

/-- The sequence branch of `convertNode`: convert every child in order. -/
def convertList : List Node → Option (List Value)
  | [] => some []
  | c :: rest =>
    match convertNode c, convertList rest with
    | some v, some vs => some (v :: vs)
    | _, _ => none

/-- The mapping loop of `convertNode`: `for i := 0; i < len(content); i += 2`
reads `content[i]` as the key node and `content[i+1]` as the value node and
appends the entry `(keyNode.Value, convertNode valueNode)`.  On a
singleton remainder the Go code panics reading `content[i+1]`; the model
returns `none` there. -/
def convertPairs : List Node → Option (List (String × Value))
  | [] => some []
  | [_] => none
  | k :: v :: rest =>
    match convertNode v, convertPairs rest with
    | some cv, some cvs => some ((k.value, cv) :: cvs)
    | _, _ => none

end

/-- Lowercase hexadecimal digit, as Go's encoding/json uses for escape
sequences. -/
def hexDigitChar (n : Nat) : Char :=
  if n < 10 then Char.ofNat (48 + n) else Char.ofNat (87 + n)

/-- The two-hex-digit escape sequence Go's encoding/json writes for a
code point below 256. -/
def unicodeEscapeSmall (n : Nat) : String :=
  "\\u00" ++ String.singleton (hexDigitChar (n / 16)) ++ String.singleton (hexDigitChar (n % 16))

/-- One character of Go's encoding/json string escaping.  When
`escHTML` is set (the package-level `json.Marshal` default) the
characters less-than, greater-than and ampersand are written as
unicode escapes; quote, backslash and control characters are always
escaped; everything else is written literally. -/
def escapeStringChar (escHTML : Bool) (c : Char) : String :=
  if c = '"' then "\\\""
  else if c = '\\' then "\\\\"
  else if escHTML && (c = '<' || c = '>' || c = '&') then unicodeEscapeSmall c.toNat
  else if c = '\n' then "\\n"
  else if c = '\r' then "\\r"
  else if c = '\t' then "\\t"
  else if c.toNat < 32 then unicodeEscapeSmall c.toNat
  else if c.toNat = 8232 then "\\u2028"
  else if c.toNat = 8233 then "\\u2029"
  else String.singleton c

/-- Go's encoding/json JSON-string encoding of a string value: a quoted
run of escaped characters. -/
def encodeGoString (escHTML : Bool) (s : String) : String :=
  "\"" ++ String.join (s.toList.map (escapeStringChar escHTML)) ++ "\""

/-- One character of the `compact` pass encoding/json applies to the
output of a custom `MarshalJSON`: when the encoder escapes HTML it
rewrites less-than, greater-than, ampersand and the line separators
U+2028 and U+2029; otherwise the byte passes through. -/
def compactEscapeChar (c : Char) : String :=
  if c = '<' then "\\u003c"
  else if c = '>' then "\\u003e"
  else if c = '&' then "\\u0026"
  else if c.toNat = 8232 then "\\u2028"
  else if c.toNat = 8233 then "\\u2029"
  else String.singleton c

/-- The `compact` pass applied to `MarshalJSON` output, parameterised by
the encoder's escape-HTML setting. -/
def compactPass (escHTML : Bool) (s : String) : String :=
  if escHTML then String.join (s.toList.map compactEscapeChar) else s

mutual

/-- JSON serialization of a converted value, as performed by
encoding/json on the dynamic values the program builds.  `escHTML` is
the escape-HTML setting of the encoder doing the walk: `false` for the
top-level `json.NewEncoder` after `SetEscapeHTML(false)` in `run`,
`true` for the package-level `json.Marshal` calls made inside
`orderedMap.MarshalJSON`.  An `orderedMap` value is serialized by its
own `MarshalJSON` method and the result passed through the encoder's
compact pass. -/
def marshalValue (escHTML : Bool) : Value → String
  | .null => "null"
  | .bool b => if b then "true" else "false"
  | .numInt n => toString n
  | .numFloat s => s
  | .str s => encodeGoString escHTML s
  | .arr vs => "[" ++ marshalElems escHTML vs ++ "]"
  | .obj es => compactPass escHTML (marshalJSON es)

/-- The element loop of encoding/json's array serialization: a comma
before every element but the first. -/
def marshalElems (escHTML : Bool) : List Value → String
  | [] => ""
  | v :: rest => marshalValue escHTML v ++ marshalElemsRest escHTML rest

/-- Tail of the array element loop: each further element preceded by a
comma. -/
def marshalElemsRest (escHTML : Bool) : List Value → String
  | [] => ""
  | v :: rest => "," ++ marshalValue escHTML v ++ marshalElemsRest escHTML rest

/-- `orderedMap.MarshalJSON` of src/tools/yaml_to_json.go: write an
opening brace, then each stored entry in order — a comma before all but
the first, the key marshalled by `json.Marshal` as a JSON string, a
colon, the value marshalled by `json.Marshal` — then a closing brace.
The package-level `json.Marshal` escapes HTML, hence `true` below. -/
def marshalJSON : List (String × Value) → String
  | [] => "\x7b" ++ "\x7d"
  | e :: rest => "\x7b" ++ marshalEntry e ++ marshalEntriesRest rest ++ "\x7d"

/-- Tail of the entry loop of `orderedMap.MarshalJSON`: each further
entry preceded by a comma. -/
def marshalEntriesRest : List (String × Value) → String
  | [] => ""
  | e :: rest => "," ++ marshalEntry e ++ marshalEntriesRest rest

/-- One entry of `orderedMap.MarshalJSON`: escaped key, colon, value. -/
def marshalEntry : String × Value → String
  | (k, v) => encodeGoString true k ++ ":" ++ marshalValue true v

end

/-- The name the program prefixes to every diagnostic on the error
stream. -/
def toolName : String := "yaml_to_json"

/-- `run` of src/tools/yaml_to_json.go, from the point where the parsed
root node is available: an empty content list is the "empty document"
error; otherwise the first content child is converted and encoded by the
escape-HTML-disabled encoder, which terminates the value with one
newline.  The outer `Option` models the conversion panic; the `Except`
carries the error or the bytes written to standard output. -/
def runProgram (root : Node) : Option (Except String String) :=
  match root.content with
  | [] => some (Except.error "empty document")
  | c :: _ => (convertNode c).map (fun v => Except.ok (marshalValue false v ++ "\n"))

/-- Observable outcome of a whole process run: bytes on standard output,
bytes on the error stream, exit code. -/
structure ProcOutcome : Type where
  stdout : String
  stderr : String
  exitCode : Nat

/-- `main` of src/tools/yaml_to_json.go: on error, nothing on standard
output, one diagnostic line prefixed with the tool name on the error
stream, exit code 1; on success the encoded JSON on standard output and
exit code 0. -/
def mainProgram (root : Node) : Option ProcOutcome :=
  (runProgram root).map fun r =>
    match r with
    | .ok out => ⟨out, "", 0⟩
    | .error msg => ⟨"", toolName ++ ": " ++ msg ++ "\n", 1⟩

/-- Modelled from the spec: parsing empty standard input yields a root
node with no content children (`yaml.Unmarshal` on empty input leaves
the zero node, whose Content is empty; the parser itself is outside
src/). -/
def emptyStdinRoot : Node := .mk 0 0 "" "" []

/-- Modelled from the spec: `yaml.Unmarshal` on a multi-document YAML
stream decodes the first document of the stream and ignores the rest
(the parser is outside src/; the spec states the first document of a
stream is used).  The stream is modelled as the list of per-document
root nodes. -/
def unmarshalStream (docs : List Node) : Node :=
  match docs with
  | [] => emptyStdinRoot
  | d :: _ => d

/-- The whole program on a multi-document stream: parse, take the first
document, run. -/
def runOnStream (docs : List Node) : Option (Except String String) :=
  runProgram (unmarshalStream docs)

mutual

/-- Every mapping node in the tree has an even number of content
children — the shape the YAML parser always produces, since mapping
content alternates key and value nodes. -/
def evenMappings : Node → Bool
  | .mk k _ _ _ c => (!(k == mappingNode) || c.length % 2 == 0) && evenMappingsList c

/-- `evenMappings` over a list of children. -/
def evenMappingsList : List Node → Bool
  | [] => true
  | n :: rest => evenMappings n && evenMappingsList rest

end

mutual

/-- Modelled from the spec: the parser's data model gives a raw textual
value only to Scalar nodes, so in parser output every non-scalar node
carries the empty string in its Value field (the parser is outside
src/). -/
def parserShaped : Node → Bool
  | .mk k _ _ v c => (k == scalarNode || v == "") && parserShapedList c

/-- `parserShaped` over a list of children. -/
def parserShapedList : List Node → Bool
  | [] => true
  | n :: rest => parserShaped n && parserShapedList rest

end

/-- The raw textual values of the key nodes of a mapping's content list:
the children at even positions, in source order. -/
def pairKeys : List Node → List String
  | [] => []
  | [_] => []
  | k :: _ :: rest => k.value :: pairKeys rest

/-- Comma-separated concatenation of strings in list order, as the
spec's serialization contract describes the entry emission. -/
def joinComma : List String → String
  | [] => ""
  | [s] => s
  | s :: rest => s ++ "," ++ joinComma rest

/-- A plain unquoted scalar node with raw text `s`, as the parser
produces for an unstyled scalar. -/
def scal (s : String) : Node := .mk scalarNode 0 "" s []

/-- The mapping node parsed from the two pairs `a: 1` and `b: 2`. -/
def abMapping : Node :=
  .mk mappingNode 0 "" "" [scal "a", scal "1", scal "b", scal "2"]

/-- The mapping node parsed from the duplicate pairs `a: 1` and `a: 2`. -/
def dupMapping : Node :=
  .mk mappingNode 0 "" "" [scal "a", scal "1", scal "a", scal "2"]

/-- A mapping whose key lexically looks like a number: `42: x`. -/
def numKeyMapping : Node :=
  .mk mappingNode 0 "" "" [scal "42", scal "x"]

/-- A mapping whose key lexically looks like a boolean: `true: x`. -/
def boolKeyMapping : Node :=
  .mk mappingNode 0 "" "" [scal "true", scal "x"]

/-- A mapping node with an odd number of content children.  The parser
never produces this shape; it probes the conversion loop directly. -/
def oddMapping : Node := .mk mappingNode 0 "" "" [scal "a"]

/-- The mapping node parsed from the end-to-end example of the spec:
`name: Widget`, `count: 3`, `tags: [a, b]`, `active: true`. -/
def widgetMapping : Node :=
  .mk mappingNode 0 "" "" [
    scal "name", scal "Widget",
    scal "count", scal "3",
    scal "tags", .mk sequenceNode flowStyle "" "" [scal "a", scal "b"],
    scal "active", scal "true"]

/-- The document root the parser yields for the end-to-end example. -/
def widgetDoc : Node := .mk documentNode 0 "" "" [widgetMapping]

/-- The document root parsed from `msg: a<b` — a string value containing
a less-than sign inside a mapping. -/
def angleDoc : Node :=
  .mk documentNode 0 "" "" [.mk mappingNode 0 "" "" [scal "msg", scal "a<b"]]

/-- A sequence node `[a]` used as a complex mapping key. -/
def seqKeyA : Node := .mk sequenceNode flowStyle "" "" [scal "a"]

/-- A sequence node `[b]` used as a complex mapping key, distinct from
`seqKeyA`. -/
def seqKeyB : Node := .mk sequenceNode flowStyle "" "" [scal "b"]

/-- The mapping node parsed from `[a]: 1` and `[b]: 2` — two distinct
complex keys. -/
def complexKeyMapping : Node :=
  .mk mappingNode 0 "" "" [seqKeyA, scal "1", seqKeyB, scal "2"]

theorem convertNode_mk (k st : Nat) (tg v : String) (content : List Node) :
    convertNode (.mk k st tg v content) =
      if k = mappingNode then (convertPairs content).map Value.obj
      else if k = sequenceNode then (convertList content).map Value.arr
      else if k = scalarNode then some (resolveScalar (isQuotedStyle st) v)
      else if k = documentNode then
        match content with
        | c :: _ => convertNode c
        | [] => some Value.null
      else some Value.null := by
  cases content <;> rw [convertNode]

theorem convertPairs_keys : ∀ c es, convertPairs c = some es → es.map Prod.fst = pairKeys c
  | [], es, h => by
    simp only [convertPairs, Option.some.injEq] at h
    subst h
    rfl
  | [_], es, h => by
    rw [convertPairs] at h
    exact absurd h (by simp)
  | k :: v :: rest, es, h => by
    rw [convertPairs] at h
    cases hv : convertNode v with
    | none => rw [hv] at h; exact absurd h (by simp)
    | some cv =>
      cases hr : convertPairs rest with
      | none => rw [hv, hr] at h; exact absurd h (by simp)
      | some cvs =>
        rw [hv, hr] at h
        simp only [Option.some.injEq] at h
        subst h
        have ih := convertPairs_keys rest cvs hr
        simp [pairKeys, ih]

theorem convertPairs_length : ∀ c es, convertPairs c = some es → es.length = c.length / 2
  | [], es, h => by
    simp only [convertPairs, Option.some.injEq] at h
    subst h
    rfl
  | [_], es, h => by
    rw [convertPairs] at h
    exact absurd h (by simp)
  | k :: v :: rest, es, h => by
    rw [convertPairs] at h
    cases hv : convertNode v with
    | none => rw [hv] at h; exact absurd h (by simp)
    | some cv =>
      cases hr : convertPairs rest with
      | none => rw [hv, hr] at h; exact absurd h (by simp)
      | some cvs =>
        rw [hv, hr] at h
        simp only [Option.some.injEq] at h
        subst h
        have ih := convertPairs_length rest cvs hr
        simp only [List.length_cons, ih]
        omega

mutual

theorem convertNode_total : ∀ n, evenMappings n = true → (convertNode n).isSome = true
  | .mk k st tg v content, h => by
    rw [evenMappings] at h
    simp only [Bool.and_eq_true] at h
    obtain ⟨h1, h2⟩ := h
    rw [convertNode_mk]
    by_cases hk : k = mappingNode
    · subst hk
      have hev : content.length % 2 = 0 := by simpa [mappingNode] using h1
      have hp := convertPairs_total content h2 hev
      cases hcp : convertPairs content with
      | none => rw [hcp] at hp; simp at hp
      | some es => simp [mappingNode, hcp]
    · by_cases hs : k = sequenceNode
      · subst hs
        have hp := convertList_total content h2
        cases hcl : convertList content with
        | none => rw [hcl] at hp; simp at hp
        | some vs => simp [mappingNode, sequenceNode, hcl]
      · by_cases hsc : k = scalarNode
        · subst hsc
          simp [mappingNode, sequenceNode, scalarNode]
        · by_cases hd : k = documentNode
          · subst hd
            cases content with
            | nil => simp [mappingNode, sequenceNode, scalarNode, documentNode]
            | cons c tail =>
              rw [evenMappingsList] at h2
              simp only [Bool.and_eq_true] at h2
              have := convertNode_total c h2.1
              simpa [mappingNode, sequenceNode, scalarNode, documentNode] using this
          · simp only [mappingNode] at hk
            simp only [sequenceNode] at hs
            simp only [scalarNode] at hsc
            simp only [documentNode] at hd
            simp [mappingNode, sequenceNode, scalarNode, documentNode, hk, hs, hsc, hd]

theorem convertList_total : ∀ c, evenMappingsList c = true → (convertList c).isSome = true
  | [], _ => by rw [convertList]; rfl
  | c :: rest, h => by
    rw [evenMappingsList] at h
    simp only [Bool.and_eq_true] at h
    have hc := convertNode_total c h.1
    have hr := convertList_total rest h.2
    rw [convertList]
    cases hcv : convertNode c with
    | none => rw [hcv] at hc; simp at hc
    | some v =>
      cases hrest : convertList rest with
      | none => rw [hrest] at hr; simp at hr
      | some vs => simp [hcv, hrest]

theorem convertPairs_total :
    ∀ c, evenMappingsList c = true → c.length % 2 = 0 → (convertPairs c).isSome = true
  | [], _, _ => by rw [convertPairs]; rfl
  | [_], _, hl => by simp at hl
  | k :: v :: rest, h, hl => by
    rw [evenMappingsList] at h
    simp only [Bool.and_eq_true] at h
    obtain ⟨hkk, h2⟩ := h
    rw [evenMappingsList] at h2
    simp only [Bool.and_eq_true] at h2
    obtain ⟨hv, hrest⟩ := h2
    have hvl : rest.length % 2 = 0 := by
      simp only [List.length_cons] at hl
      omega
    have hcv := convertNode_total v hv
    have hcp := convertPairs_total rest hrest hvl
    rw [convertPairs]
    cases hv1 : convertNode v with
    | none => rw [hv1] at hcv; simp at hcv
    | some cv =>
      cases hr1 : convertPairs rest with
      | none => rw [hr1] at hcp; simp at hcp
      | some cvs => simp [hv1, hr1]

end

theorem marshalEntriesRest_joinComma :
    ∀ (rest : List (String × Value)) (s : String),
      s ++ marshalEntriesRest rest = joinComma (s :: rest.map marshalEntry)
  | [], s => by
    rw [marshalEntriesRest, List.map_nil, joinComma, String.append_empty]
  | e :: rest, s => by
    rw [marshalEntriesRest, List.map_cons]
    rw [joinComma]
    · rw [← marshalEntriesRest_joinComma rest (marshalEntry e)]
      simp [String.append_assoc]
    · simp

theorem marshalJSON_joinComma :
    ∀ es : List (String × Value),
      marshalJSON es = "\x7b" ++ joinComma (es.map marshalEntry) ++ "\x7d"
  | [] => by
    rw [marshalJSON, List.map_nil, joinComma, String.append_empty]
  | e :: rest => by
    rw [marshalJSON, List.map_cons, ← marshalEntriesRest_joinComma rest (marshalEntry e)]
    simp [String.append_assoc]

theorem isIntLex_no_literal (s : String) (h : isIntLex s = true) :
    isNullLiteral s = false ∧ isTrueLiteral s = false ∧ isFalseLiteral s = false := by
  refine ⟨?_, ?_, ?_⟩
  · cases hn : isNullLiteral s with
    | false => rfl
    | true =>
      simp only [isNullLiteral, Bool.or_eq_true, decide_eq_true_eq] at hn
      rcases hn with (((rfl | rfl) | rfl) | rfl) | rfl <;> exact absurd h (by decide)
  · cases hn : isTrueLiteral s with
    | false => rfl
    | true =>
      simp only [isTrueLiteral, Bool.or_eq_true, decide_eq_true_eq] at hn
      rcases hn with (rfl | rfl) | rfl <;> exact absurd h (by decide)
  · cases hn : isFalseLiteral s with
    | false => rfl
    | true =>
      simp only [isFalseLiteral, Bool.or_eq_true, decide_eq_true_eq] at hn
      rcases hn with (rfl | rfl) | rfl <;> exact absurd h (by decide)

theorem isFloatLex_no_literal (s : String) (h : isFloatLex s = true) :
    isNullLiteral s = false ∧ isTrueLiteral s = false ∧ isFalseLiteral s = false := by
  refine ⟨?_, ?_, ?_⟩
  · cases hn : isNullLiteral s with
    | false => rfl
    | true =>
      simp only [isNullLiteral, Bool.or_eq_true, decide_eq_true_eq] at hn
      rcases hn with (((rfl | rfl) | rfl) | rfl) | rfl <;> exact absurd h (by decide)
  · cases hn : isTrueLiteral s with
    | false => rfl
    | true =>
      simp only [isTrueLiteral, Bool.or_eq_true, decide_eq_true_eq] at hn
      rcases hn with (rfl | rfl) | rfl <;> exact absurd h (by decide)
  · cases hn : isFalseLiteral s with
    | false => rfl
    | true =>
      simp only [isFalseLiteral, Bool.or_eq_true, decide_eq_true_eq] at hn
      rcases hn with (rfl | rfl) | rfl <;> exact absurd h (by decide)

theorem resolveScalar_int (s : String) (h : isIntLex s = true) :
    resolveScalar false s = Value.numInt (parseIntLex s) := by
  obtain ⟨h1, h2, h3⟩ := isIntLex_no_literal s h
  simp [resolveScalar, h1, h2, h3, h]

theorem resolveScalar_float (s : String) (hi : isIntLex s = false) (hf : isFloatLex s = true) :
    resolveScalar false s = Value.numFloat s := by
  obtain ⟨h1, h2, h3⟩ := isFloatLex_no_literal s hf
  simp [resolveScalar, h1, h2, h3, hi, hf]

theorem resolveScalar_fallback (s : String) (h1 : isNullLiteral s = false)
    (h2 : isTrueLiteral s = false) (h3 : isFalseLiteral s = false)
    (h4 : isIntLex s = false) (h5 : isFloatLex s = false) :
    resolveScalar false s = Value.str s := by
  simp [resolveScalar, h1, h2, h3, h4, h5]

theorem convertNode_scalar (k st : Nat) (tg v : String) (c : List Node) (h : k = scalarNode) :
    convertNode (.mk k st tg v c) = some (resolveScalar (isQuotedStyle st) v) := by
  subst h
  rw [convertNode_mk]
  simp [mappingNode, sequenceNode, scalarNode]

theorem convertNode_mapping_entries (n : Node) (es : List (String × Value))
    (hk : n.kind = mappingNode) (h : convertNode n = some (Value.obj es)) :
    es.map Prod.fst = pairKeys n.content ∧ es.length = n.content.length / 2 := by
  obtain ⟨k, st, tg, v, c⟩ := n
  simp only [Node.kind] at hk
  subst hk
  rw [convertNode_mk] at h
  simp only [eq_self_iff_true, if_true] at h
  cases hcp : convertPairs c with
  | none => rw [hcp] at h; exact absurd h (by simp)
  | some es2 =>
    rw [hcp] at h
    simp only [Option.map_some', Option.some.injEq, Value.obj.injEq] at h
    subst h
    exact ⟨convertPairs_keys c es2 hcp, convertPairs_length c es2 hcp⟩

theorem runProgram_success (root c : Node) (rest : List Node) (v : Value)
    (h1 : root.content = c :: rest) (h2 : convertNode c = some v) :
    runProgram root = some (Except.ok (marshalValue false v ++ "\n")) := by
  obtain ⟨k, st, tg, vv, cc⟩ := root
  simp only [Node.content] at h1
  subst h1
  simp [runProgram, Node.content, h2]

/-- C1: For every YAML mapping node, at every nesting depth, the keys of
the JSON object emitted for it appear in exactly the order the key/value
pairs appear in the source mapping: `convertNode` appends entries in
parser order (the entry keys are the raw values of the even-position
children, in order), and the orderedMap serialization writes the entries
in stored order, comma-separated between braces. -/
theorem mapping_keys_preserve_source_order :
    (∀ (n : Node) (es : List (String × Value)), n.kind = mappingNode →
      convertNode n = some (Value.obj es) → es.map Prod.fst = pairKeys n.content) ∧
    (∀ es : List (String × Value),
      marshalJSON es = "\x7b" ++ joinComma (es.map marshalEntry) ++ "\x7d") :=
  ⟨fun n es hk h => (convertNode_mapping_entries n es hk h).1, marshalJSON_joinComma⟩

/-- Witness for C1 at the two-pair mapping `a: 1`, `b: 2`. -/
theorem mapping_keys_preserve_source_order_witness :
    [("a", Value.numInt 1), ("b", Value.numInt 2)].map Prod.fst = pairKeys abMapping.content :=
  mapping_keys_preserve_source_order.1 abMapping
    [("a", Value.numInt 1), ("b", Value.numInt 2)] rfl rfl

/-- C2: evaluation of the code at the failing input `msg: a<b`.  A
string value inside a mapping has its less-than sign emitted as the
escape sequence backslash-u003c, because `orderedMap.MarshalJSON` calls
the package-level `json.Marshal`, which escapes HTML regardless of the
`SetEscapeHTML(false)` on the top-level encoder; the same string at the
top level or inside a top-level sequence is emitted literally. -/
theorem html_escape_reaches_mapping_values :
    mainProgram angleDoc = some ⟨"\x7b\"msg\":\"a\\u003cb\"\x7d\n", "", 0⟩ ∧
    marshalValue false (Value.str "a<b") = "\"a<b\"" ∧
    marshalValue false (Value.arr [Value.str "a<b"]) = "[\"a<b\"]" :=
  ⟨rfl, rfl, rfl⟩

/-- C3: `convertNode` resolves every scalar node by the parser's
implicit typing: true and false become booleans, null, tilde and the
empty scalar become null, integer and float lexical forms become
numbers, a quoted scalar such as a double-quoted 42 stays a string, and
anything else falls back to the literal text as a string. -/
theorem scalar_resolution_rules :
    (∀ (k st : Nat) (tg v : String) (c : List Node), k = scalarNode →
      convertNode (.mk k st tg v c) = some (resolveScalar (isQuotedStyle st) v)) ∧
    resolveScalar false "true" = Value.bool true ∧
    resolveScalar false "false" = Value.bool false ∧
    resolveScalar false "null" = Value.null ∧
    resolveScalar false "~" = Value.null ∧
    resolveScalar false "" = Value.null ∧
    (∀ s, isIntLex s = true → resolveScalar false s = Value.numInt (parseIntLex s)) ∧
    (∀ s, isIntLex s = false → isFloatLex s = true → resolveScalar false s = Value.numFloat s) ∧
    resolveScalar true "42" = Value.str "42" ∧
    convertNode (.mk scalarNode doubleQuotedStyle "" "42" []) = some (Value.str "42") ∧
    (∀ s, isNullLiteral s = false → isTrueLiteral s = false → isFalseLiteral s = false →
      isIntLex s = false → isFloatLex s = false → resolveScalar false s = Value.str s) :=
  ⟨convertNode_scalar, rfl, rfl, rfl, rfl, rfl, resolveScalar_int, resolveScalar_float,
    rfl, rfl, resolveScalar_fallback⟩

/-- Witness for C3 at the numeric scalars 42 and 3.14. -/
theorem scalar_resolution_rules_witness :
    resolveScalar false "42" = Value.numInt 42 ∧
    resolveScalar false "3.14" = Value.numFloat "3.14" :=
  ⟨scalar_resolution_rules.2.2.2.2.2.2.1 "42" (by decide),
   scalar_resolution_rules.2.2.2.2.2.2.2.1 "3.14" (by decide) (by decide)⟩

/-- C4 counterexample: on a mapping node with an odd number of content
children the conversion aborts — `none` models the index-out-of-range
panic the Go code hits at `node.Content[i+1]` — so `convertNode` is not
total over all node shapes. -/
theorem convertNode_odd_mapping_counterexample : convertNode oddMapping = none := rfl

/-- C4 (amended): `convertNode` never fails on any node in which every
mapping node has an even number of content children — the only shapes
the YAML parser produces; unresolved scalars fall back to the raw text
as a string and nodes of unknown kind yield null.  The original claim's
odd-content mapping case is the exception established by the
counterexample. -/
theorem convertNode_total_on_parser_shapes :
    (∀ n : Node, evenMappings n = true → (convertNode n).isSome = true) ∧
    (∀ s, isNullLiteral s = false → isTrueLiteral s = false → isFalseLiteral s = false →
      isIntLex s = false → isFloatLex s = false → resolveScalar false s = Value.str s) ∧
    (∀ (k st : Nat) (tg v : String) (c : List Node),
      k ≠ mappingNode → k ≠ sequenceNode → k ≠ scalarNode → k ≠ documentNode →
      convertNode (.mk k st tg v c) = some Value.null) := by
  refine ⟨convertNode_total, resolveScalar_fallback, ?_⟩
  intro k st tg v c hk hs hsc hd
  rw [convertNode_mk]
  simp [hk, hs, hsc, hd]

/-- Witness for C4 at the end-to-end example document, an unresolvable
scalar, and an alias node. -/
theorem convertNode_total_on_parser_shapes_witness :
    (convertNode widgetDoc).isSome = true ∧
    resolveScalar false "Widget" = Value.str "Widget" ∧
    convertNode (.mk aliasNode 0 "" "x" []) = some Value.null :=
  ⟨convertNode_total_on_parser_shapes.1 widgetDoc (by decide),
   convertNode_total_on_parser_shapes.2.1 "Widget"
     (by decide) (by decide) (by decide) (by decide) (by decide),
   convertNode_total_on_parser_shapes.2.2 aliasNode 0 "" "x" []
     (by decide) (by decide) (by decide) (by decide)⟩

/-- C5: a mapping with a repeated key emits one entry per source pair —
the entry count is the pair count and the keys are the source keys in
order, duplicates included — and on `a: 1` then `a: 2` both entries are
named a, in source order. -/
theorem duplicate_keys_not_merged :
    (∀ (n : Node) (es : List (String × Value)), n.kind = mappingNode →
      convertNode n = some (Value.obj es) →
      es.length = n.content.length / 2 ∧ es.map Prod.fst = pairKeys n.content) ∧
    convertNode dupMapping = some (Value.obj [("a", Value.numInt 1), ("a", Value.numInt 2)]) :=
  ⟨fun n es hk h =>
    ⟨(convertNode_mapping_entries n es hk h).2, (convertNode_mapping_entries n es hk h).1⟩,
   rfl⟩

/-- Witness for C5 at the duplicate-key mapping `a: 1`, `a: 2`. -/
theorem duplicate_keys_not_merged_witness :
    ([("a", Value.numInt 1), ("a", Value.numInt 2)] : List (String × Value)).length =
        dupMapping.content.length / 2 ∧
      [("a", Value.numInt 1), ("a", Value.numInt 2)].map Prod.fst = pairKeys dupMapping.content :=
  duplicate_keys_not_merged.1 dupMapping [("a", Value.numInt 1), ("a", Value.numInt 2)] rfl rfl

/-- C6: the object key of every mapping pair is the key node's raw
textual value verbatim — the key list of the conversion result is the
list of raw values of the even-position children — so keys that look
like a number or a boolean stay their literal text and are serialized as
JSON strings. -/
theorem mapping_keys_used_verbatim :
    (∀ c es, convertPairs c = some es → es.map Prod.fst = pairKeys c) ∧
    convertNode numKeyMapping = some (Value.obj [("42", Value.str "x")]) ∧
    convertNode boolKeyMapping = some (Value.obj [("true", Value.str "x")]) ∧
    marshalValue false (Value.obj [("42", Value.str "x")]) = "\x7b\"42\":\"x\"\x7d" :=
  ⟨convertPairs_keys, rfl, rfl, rfl⟩

/-- Witness for C6 at the numeric-looking key mapping `42: x`. -/
theorem mapping_keys_used_verbatim_witness :
    [("42", Value.str "x")].map Prod.fst = pairKeys numKeyMapping.content :=
  mapping_keys_used_verbatim.1 numKeyMapping.content [("42", Value.str "x")] rfl

/-- C7: when the parsed document has no content node — as for empty
standard input — the program writes nothing to standard output, exits
with a non-zero status, and writes a diagnostic prefixed with the tool's
name to the error stream. -/
theorem empty_document_exits_nonzero :
    (∀ root : Node, root.content = [] → ∃ pr : ProcOutcome,
      mainProgram root = some pr ∧ pr.stdout = "" ∧ pr.exitCode ≠ 0 ∧
      ∃ msg : String, pr.stderr = toolName ++ ": " ++ msg) ∧
    mainProgram emptyStdinRoot = some ⟨"", "yaml_to_json: empty document\n", 1⟩ := by
  constructor
  · rintro ⟨k, st, tg, v, c⟩ h
    simp only [Node.content] at h
    subst h
    exact ⟨⟨"", toolName ++ ": " ++ "empty document" ++ "\n", 1⟩, rfl, rfl, by decide,
      "empty document" ++ "\n", rfl⟩
  · rfl

/-- Witness for C7 at the root node parsed from empty input. -/
theorem empty_document_exits_nonzero_witness :
    ∃ pr : ProcOutcome, mainProgram emptyStdinRoot = some pr ∧ pr.stdout = "" ∧
      pr.exitCode ≠ 0 ∧ ∃ msg : String, pr.stderr = toolName ++ ": " ++ msg :=
  empty_document_exits_nonzero.1 emptyStdinRoot rfl

/-- C8: on success the program writes exactly one JSON value — the
marshalled form of the converted root — followed by a single newline;
for the spec's example input the output is exactly the expected compact
object line plus the newline. -/
theorem success_output_single_value_newline :
    (∀ (root c : Node) (rest : List Node) (v : Value),
      root.content = c :: rest → convertNode c = some v →
      runProgram root = some (Except.ok (marshalValue false v ++ "\n"))) ∧
    runProgram widgetDoc =
      some (Except.ok
        "\x7b\"name\":\"Widget\",\"count\":3,\"tags\":[\"a\",\"b\"],\"active\":true\x7d\n") :=
  ⟨runProgram_success, rfl⟩

/-- Witness for C8 at the end-to-end example document. -/
theorem success_output_single_value_newline_witness :
    runProgram widgetDoc =
      some (Except.ok (marshalValue false
        (Value.obj [("name", Value.str "Widget"), ("count", Value.numInt 3),
          ("tags", Value.arr [Value.str "a", Value.str "b"]),
          ("active", Value.bool true)]) ++ "\n")) :=
  success_output_single_value_newline.1 widgetDoc widgetMapping []
    (Value.obj [("name", Value.str "Widget"), ("count", Value.numInt 3),
      ("tags", Value.arr [Value.str "a", Value.str "b"]),
      ("active", Value.bool true)]) rfl rfl

/-- C9: on a YAML stream of more than one document the program uses the
first document of the stream — the outcome does not depend on the
trailing documents — and succeeds, converting the first document. -/
theorem multi_document_stream_uses_first :
    (∀ (d : Node) (rest : List Node), runOnStream (d :: rest) = runProgram d) ∧
    (∀ (d : Node) (rest : List Node) (c : Node) (cs : List Node) (v : Value),
      d.content = c :: cs → convertNode c = some v →
      runOnStream (d :: rest) = some (Except.ok (marshalValue false v ++ "\n"))) := by
  constructor
  · intro d rest
    rfl
  · intro d rest c cs v h1 h2
    show runProgram d = _
    exact runProgram_success d c cs v h1 h2

/-- Witness for C9: the example document followed by a second, ignored
document. -/
theorem multi_document_stream_uses_first_witness :
    runOnStream [widgetDoc, angleDoc] =
      some (Except.ok (marshalValue false
        (Value.obj [("name", Value.str "Widget"), ("count", Value.numInt 3),
          ("tags", Value.arr [Value.str "a", Value.str "b"]),
          ("active", Value.bool true)]) ++ "\n")) :=
  multi_document_stream_uses_first.2 widgetDoc [angleDoc] widgetMapping []
    (Value.obj [("name", Value.str "Widget"), ("count", Value.numInt 3),
      ("tags", Value.arr [Value.str "a", Value.str "b"]),
      ("active", Value.bool true)]) rfl rfl

/-- C10: a non-scalar mapping key node carries the empty string in its
raw Value field in parser output, the emitted key is always that raw
field, and so two distinct complex keys both collapse to the object key
that is the empty string, producing indistinguishable entries. -/
theorem complex_keys_collapse_to_empty :
    (∀ kn : Node, parserShaped kn = true → kn.kind ≠ scalarNode → kn.value = "") ∧
    (∀ c es, convertPairs c = some es → es.map Prod.fst = pairKeys c) ∧
    convertNode complexKeyMapping =
      some (Value.obj [("", Value.numInt 1), ("", Value.numInt 2)]) ∧
    seqKeyA ≠ seqKeyB := by
  refine ⟨?_, convertPairs_keys, rfl, ?_⟩
  · rintro ⟨k, st, tg, v, c⟩ h hk
    rw [parserShaped] at h
    simp only [Bool.and_eq_true, Bool.or_eq_true, beq_iff_eq] at h
    simp only [Node.kind] at hk
    simp only [Node.value]
    rcases h.1 with h1 | h1
    · exact absurd h1 hk
    · exact h1
  · intro h
    simp [seqKeyA, seqKeyB, scal] at h

/-- Witness for C10 at the two distinct sequence-valued keys. -/
theorem complex_keys_collapse_to_empty_witness :
    seqKeyA.value = "" ∧ seqKeyB.value = "" :=
  ⟨complex_keys_collapse_to_empty.1 seqKeyA (by decide) (by decide),
   complex_keys_collapse_to_empty.1 seqKeyB (by decide) (by decide)⟩
